import Mathlib

/-!
Verification development for the `q-ffprobe` module (`src/ffprobe.misc.js`):
a wrapper around the external `ffprobe` tool that caches probe results per
resource identifier, coalesces concurrent asynchronous requests, offers a
blocking synchronous path, and clears the whole cache on a fixed interval.

The embedding has two layers:

* a pure field extractor mirroring `ffprobe_success` (lines 56-92), acting on
  the already-parsed structured output (the JSON parser `cX.tryJsonParse` is an
  external collaborator, so extraction takes the parse result as input);
* a small-step state machine for the cache, the in-flight asynchronous
  operations (promises), the blocking synchronous invocation, and the periodic
  clear, mirroring `ffprobe` (lines 105-121), `ffprobe_sync` (lines 123-139),
  `ffprobe_fail` (lines 48-54), the cache-write in `ffprobe_success`, and
  `clearFFprobeCache` (lines 29-32).  JavaScript runs handlers on a single
  thread, so every event is atomic, and while a blocking synchronous
  invocation is in flight no other handler can run.
-/

namespace QFFprobe

/-- Last-binding-wins lookup in an association list.  JavaScript object
assignment (`obj[k] = v`) overwrites, so repeated assignments are modelled by
appending and reading the last matching key. -/
def lookupLast {α β : Type} [DecidableEq α] (xs : List (α × β)) (k : α) : Option β :=
  match xs with
  | [] => none
  | kv :: t =>
    match lookupLast t k with
    | some v => some v
    | none => if kv.1 = k then some kv.2 else none

/-- Update the value stored at every occurrence of a key. -/
def updAt {β : Type} (xs : List (Nat × β)) (n : Nat) (f : β → β) : List (Nat × β) :=
  xs.map (fun kv => if kv.1 = n then (kv.1, f kv.2) else kv)

/-- A parsed JSON object whose values are strings, as produced by
`ffprobe -of json` for the stream/format/tags blocks. -/
abbrev Obj := List (String × String)

/-- JS `String.prototype.toLowerCase` (an external builtin), over the
string's characters. -/
def toLowerStr (s : String) : String :=
  String.mk (s.data.map Char.toLower)

/-- JS `String.prototype.split` with a one-character separator, on the
character list: `splitOnChar sep cs` is the list of separator-free groups. -/
def splitOnChar (sep : Char) : List Char → List (List Char)
  | [] => [[]]
  | c :: t =>
    if c = sep then [] :: splitOnChar sep t
    else
      match splitOnChar sep t with
      | g :: gs => (c :: g) :: gs
      | [] => [[c]]

/-- `cX.keysToLower` (external helper used at lines 66-68): the same object
with every key lower-cased. -/
def keysToLower (o : Obj) : Obj :=
  o.map (fun kv => (toLowerStr kv.1, kv.2))

/-- Field access on a parsed object (`s.codec_name` etc.): last binding wins,
missing key is `undefined` (`none`). -/
def oget (o : Obj) (k : String) : Option String :=
  lookupLast o k

/-- JavaScript string truthiness for the `a || b || null` fallback chains at
lines 80-84: among strings only `""` is falsy. -/
def truthy : Option String → Option String
  | none => none
  | some s => if s = "" then none else some s

/-- Numeric value of a list of decimal digits. -/
def digitsToNat (ds : List Char) : Nat :=
  ds.foldl (fun a c => a * 10 + (c.toNat - 48)) 0

/-- JavaScript `parseInt` on a string (the external builtin used at lines
74-79): skip leading whitespace, optional sign, then the longest prefix of
decimal digits; no digits means `NaN` (`none`). -/
def parseIntJS (s : String) : Option Int :=
  let cs := s.data.dropWhile (fun c => c = ' ' ∨ c = '\t' ∨ c = '\n' ∨ c = '\r')
  match cs with
  | '-' :: t =>
    let ds := t.takeWhile Char.isDigit
    if ds.isEmpty then none else some (-(digitsToNat ds : Int))
  | '+' :: t =>
    let ds := t.takeWhile Char.isDigit
    if ds.isEmpty then none else some (digitsToNat ds : Int)
  | t =>
    let ds := t.takeWhile Char.isDigit
    if ds.isEmpty then none else some (digitsToNat ds : Int)

/-- `parseInt(x) || null` (lines 74-79): `parseInt` of a missing field is
`NaN`, and both `NaN` and `0` are falsy, hence `null`. -/
def intOrNull (v : Option String) : Option Int :=
  match v with
  | none => none
  | some s =>
    match parseIntJS s with
    | none => none
    | some n => if n = 0 then none else some n

/-- Is the character list a non-empty run of decimal digits? -/
def allDigits (cs : List Char) : Bool :=
  !cs.isEmpty && cs.all Char.isDigit

/-- Year component of a JavaScript `new Date(str)` for the ISO forms `YYYY`
and `YYYY-MM-DD` (the external `Date` builtin used at line 83); any other
input is an invalid date, whose year is `NaN` (`none`). -/
def isoYear (s : String) : Option Int :=
  match splitOnChar '-' s.data with
  | [y] =>
    if y.length = 4 ∧ allDigits y then some (digitsToNat y : Int) else none
  | [y, m, d] =>
    if y.length = 4 ∧ allDigits y ∧ m.length = 2 ∧ allDigits m ∧ d.length = 2 ∧ allDigits d
        ∧ 1 ≤ digitsToNat m ∧ digitsToNat m ≤ 12
        ∧ 1 ≤ digitsToNat d ∧ digitsToNat d ≤ 31
    then some (digitsToNat y : Int) else none
  | _ => none

/-- `(new Date(x)).getFullYear() || null` (line 83): year `0` and `NaN` both
collapse to `null`. -/
def dateFullYear (v : Option String) : Option Int :=
  match v with
  | none => none
  | some s =>
    match isoYear s with
    | none => none
    | some y => if y = 0 then none else some y

/-- The normalized metadata record built at lines 71-85. -/
structure Metadata where
  codec : Option String
  format : Option String
  size : Option Int
  bit_rate : Option Int
  sample_rate : Option Int
  bit_depth : Option Int
  channels : Option Int
  duration : Option Int
  title : Option String
  album : Option String
  artist : Option String
  year : Option Int
  genre : Option String
deriving DecidableEq, Repr

/-- The `format` block of the parsed probe output: its scalar fields and the
optional nested `tags` object. -/
structure FormatObj where
  fields : Obj
  tags : Option Obj
deriving DecidableEq, Repr

/-- Shape of the value produced by parsing `ffprobe`'s JSON stdout.
`streams = none` models a missing or non-array `streams` property (the
`Array.isArray` test at line 60); `format = none` models a missing or falsy
`format` property. -/
structure ProbeData where
  streams : Option (List Obj)
  format : Option FormatObj
deriving DecidableEq, Repr

/-- The ways `ffprobe_success` can throw (all surface as what the spec calls
`ExtractionError`): stdout not parseable as JSON (line 59), missing or empty
`streams` or missing `format` (line 61), or a fault while projecting fields,
wrapped by the `catch` at lines 89-91. -/
inductive ExtErr where
  | unparseable
  | incomplete
  | fault
deriving DecidableEq, Repr

/-- An error cached or delivered to a caller: an invocation failure wrapped by
`ffprobe_fail` (lines 48-54, carrying diagnostic text) or an extraction
failure. -/
inductive PErr where
  | invocation (diag : String)
  | extraction (e : ExtErr)
deriving DecidableEq, Repr

/-- `ffprobe_success` (lines 56-92) without its cache write: from the result
of `cX.tryJsonParse(obj.stdout)` (`none` when the parse failed) to either a
metadata record or an extraction error.  A missing `format_name` makes
`cX.toLower(f.format_name,null)` return `null`, so `.split(',')` at line 73
throws and the `catch` at line 89 rewraps it (`ExtErr.fault`). -/
def extract (data : Option ProbeData) : Except ExtErr Metadata :=
  match data with
  | none => Except.error ExtErr.unparseable
  | some info =>
    match info.streams, info.format with
    | some (s0 :: _), some fo =>
      let s := keysToLower s0
      let f := keysToLower fo.fields
      let t := match fo.tags with
        | some tg => keysToLower tg
        | none => []
      match oget f "format_name" with
      | none => Except.error ExtErr.fault
      | some fn =>
        Except.ok
          { codec := (oget s "codec_name").map toLowerStr
            format := some (String.mk ((splitOnChar ',' (toLowerStr fn).data).headD []))
            size := intOrNull (oget f "size")
            bit_rate := intOrNull (oget f "bit_rate")
            sample_rate := intOrNull (oget s "sample_rate")
            bit_depth := intOrNull (oget s "bits_per_raw_sample")
            channels := intOrNull (oget s "channels")
            duration := intOrNull (oget s "duration")
            title := (truthy (oget t "title")).orElse (fun _ => truthy (oget t "name"))
            album := truthy (oget t "album")
            artist := ((truthy (oget t "artist")).orElse
              (fun _ => truthy (oget t "albumartist"))).orElse
              (fun _ => ((truthy (oget t "album_artist")).orElse
                (fun _ => truthy (oget t "composer"))))
            year := dateFullYear ((truthy (oget t "year")).orElse
              (fun _ => truthy (oget t "date")))
            genre := truthy (oget t "genre") }
    | _, _ => Except.error ExtErr.incomplete

/-- Interval of the periodic cache clear, from `setInterval(..., 60000)` at
line 32, in milliseconds. -/
def clearIntervalMs : Nat := 60000

/-- State of the promise produced at line 108 by
`ffprobePromise(...).then(ffprobe_success, ffprobe_fail)`. -/
inductive PromState where
  | pending
  | fulfilled (m : Metadata)
  | rejected (e : PErr)
deriving DecidableEq, Repr

/-- Bookkeeping for one asynchronous invocation: the probed identifier,
whether the external process is still running (its `.then` handlers have not
run yet), and the state of the associated promise. -/
structure OpData where
  path : String
  running : Bool
  prom : PromState
deriving DecidableEq, Repr

/-- A value stored in `ffprobe_cache`: the promise of operation `n` (line
108), a metadata record (line 71), or an error object (line 52 or the
synchronous catch at line 130). -/
inductive Entry where
  | prom (n : Nat)
  | res (m : Metadata)
  | fail (e : PErr)
deriving DecidableEq, Repr

deriving instance DecidableEq for Except

/-- What a caller returned by an asynchronous `ffprobe` call holds: an
already-settled outcome, or the promise of operation `n`. -/
inductive Hold where
  | settled (r : Except PErr Metadata)
  | awaiting (n : Nat)
deriving DecidableEq, Repr

/-- Global state: the cache map, the asynchronous operations keyed by id, the
next fresh operation id, the holds of asynchronous/synchronous callers, and
the caller/path of a blocking synchronous invocation currently in flight
(`none` when the thread is free). -/
structure St where
  cache : List (String × Entry)
  ops : List (Nat × OpData)
  nextOp : Nat
  callers : List (Nat × Hold)
  syncPending : Option (Nat × String)
deriving DecidableEq, Repr

/-- The empty initial state: `ffprobe_cache = {}` (line 28). -/
def initSt : St :=
  { cache := [], ops := [], nextOp := 0, callers := [], syncPending := none }

/-- `ffprobe_cache[path]` with JavaScript last-assignment-wins semantics. -/
def cacheGet (s : St) (p : String) : Option Entry :=
  lookupLast s.cache p

/-- Assignment `ffprobe_cache[path] := v`. -/
def cacheSet (c : List (String × Entry)) (p : String) (v : Entry) :
    List (String × Entry) :=
  c ++ [(p, v)]

/-- The record of operation `n`. -/
def opState (s : St) (n : Nat) : Option OpData :=
  lookupLast s.ops n

/-- Settle operation `n`: its handlers have run, its promise is now `pr`. -/
def setOp (ops : List (Nat × OpData)) (n : Nat) (pr : PromState) :
    List (Nat × OpData) :=
  updAt ops n (fun o => { o with running := false, prom := pr })

/-- The hold of caller `c`. -/
def callerHold (s : St) (c : Nat) : Option Hold :=
  lookupLast s.callers c

/-- The settled outcome observed by caller `c`: `none` while it still awaits a
pending promise. -/
def callerResult (s : St) (c : Nat) : Option (Except PErr Metadata) :=
  match callerHold s c with
  | some (Hold.settled r) => some r
  | some (Hold.awaiting n) =>
    match opState s n with
    | some o =>
      match o.prom with
      | PromState.fulfilled m => some (Except.ok m)
      | PromState.rejected e => some (Except.error e)
      | PromState.pending => none
    | none => none
  | none => none

/-- Result of the external asynchronous invocation `ffprobePromise` as seen by
the `.then` handlers at lines 109-112: a rejection carrying diagnostic text
(routed to `ffprobe_fail`) or a fulfilment whose stdout parses to the given
`ProbeData` (`none` when `cX.tryJsonParse` fails), routed to
`ffprobe_success`.  The parser is an external collaborator, so its output is
event data. -/
inductive RawOutcome where
  | fail (diag : String)
  | success (data : Option ProbeData)
deriving DecidableEq, Repr

/-- The outcome the promise of an asynchronous operation settles to, given the
raw invocation outcome: `ffprobe_fail` wraps a failure into an error object;
`ffprobe_success` extracts metadata or throws an extraction error. -/
def outcomeOfRaw (out : RawOutcome) : Except PErr Metadata :=
  match out with
  | RawOutcome.fail diag => Except.error (PErr.invocation diag)
  | RawOutcome.success data =>
    match extract data with
    | Except.ok m => Except.ok m
    | Except.error ee => Except.error (PErr.extraction ee)

/-- The cache entry `ffprobe_sync` stores at line 132: the value returned by
the external blocking invocation `ffprobeSync`, or the error it threw. -/
def entryOfOutcome (r : Except PErr Metadata) : Entry :=
  match r with
  | Except.ok m => Entry.res m
  | Except.error e => Entry.fail e

/-- Atomic events of the single-threaded runtime. -/
inductive Ev where
  /-- Caller `c` calls `ffprobe(path, timeout)` (lines 105-121). -/
  | asyncCall (c : Nat) (path : String)
  /-- The external process of operation `n` has finished and its `.then`
  handler (`ffprobe_success` or `ffprobe_fail`) runs. -/
  | opComplete (n : Nat) (out : RawOutcome)
  /-- Caller `c` calls `ffprobe.sync(path, timeout)` (lines 123-139). -/
  | syncCall (c : Nat) (path : String)
  /-- The blocking invocation `ffprobeSync` returns (or throws) and the rest
  of `ffprobe_sync` (lines 129-138) runs. -/
  | syncReturn (out : Except PErr Metadata)
  /-- The interval fires: `clearFFprobeCache` (lines 29-32). -/
  | clear
deriving DecidableEq, Repr

/-- One atomic step.  While a blocking synchronous invocation is in flight the
JavaScript thread is held inside `ffprobe_sync`, so only `syncReturn` can
happen; every other event is a no-op in that state. -/
def step (s : St) (e : Ev) : St :=
  match e, s.syncPending with
  | Ev.syncReturn out, some cp =>
    { s with
      cache := cacheSet s.cache cp.2 (entryOfOutcome out)
      callers := s.callers ++ [(cp.1, Hold.settled out)]
      syncPending := none }
  | Ev.syncReturn _, none => s
  | _, some _ => s
  | Ev.asyncCall c p, none =>
    match cacheGet s p with
    | none =>
      { s with
        cache := cacheSet s.cache p (Entry.prom s.nextOp)
        ops := s.ops ++ [(s.nextOp, { path := p, running := true, prom := PromState.pending })]
        nextOp := s.nextOp + 1
        callers := s.callers ++ [(c, Hold.awaiting s.nextOp)] }
    | some (Entry.fail e) =>
      { s with callers := s.callers ++ [(c, Hold.settled (Except.error e))] }
    | some (Entry.res m) =>
      { s with callers := s.callers ++ [(c, Hold.settled (Except.ok m))] }
    | some (Entry.prom n) =>
      { s with callers := s.callers ++ [(c, Hold.awaiting n)] }
  | Ev.opComplete n out, none =>
    match opState s n with
    | some o =>
      if o.running then
        match out with
        | RawOutcome.fail diag =>
          { s with
            cache := cacheSet s.cache o.path (Entry.fail (PErr.invocation diag))
            ops := setOp s.ops n (PromState.rejected (PErr.invocation diag)) }
        | RawOutcome.success data =>
          match extract data with
          | Except.ok m =>
            { s with
              cache := cacheSet s.cache o.path (Entry.res m)
              ops := setOp s.ops n (PromState.fulfilled m) }
          | Except.error ee =>
            { s with ops := setOp s.ops n (PromState.rejected (PErr.extraction ee)) }
      else s
    | none => s
  | Ev.syncCall c p, none =>
    match cacheGet s p with
    | some (Entry.res m) =>
      { s with callers := s.callers ++ [(c, Hold.settled (Except.ok m))] }
    | some (Entry.fail e) =>
      { s with callers := s.callers ++ [(c, Hold.settled (Except.error e))] }
    | _ =>
      { s with syncPending := some (c, p) }
  | Ev.clear, none =>
    { s with cache := [] }

/-- Run a list of events from the initial state. -/
def run (evs : List Ev) : St :=
  evs.foldl step initSt

/-- Number of invocations of the external tool currently in flight for a given
identifier: running asynchronous operations plus a blocking synchronous one. -/
def inFlight (s : St) (p : String) : Nat :=
  (s.ops.filter (fun kv => kv.2.running && kv.2.path = p)).length +
    (match s.syncPending with
     | some cq => if cq.2 = p then 1 else 0
     | none => 0)

/-- Apply a batch of asynchronous `ffprobe` calls for one path, one per listed
caller, back to back (no other event in between). -/
def applyAsyncCalls (s : St) (p : String) (cs : List Nat) : St :=
  cs.foldl (fun st c => step st (Ev.asyncCall c p)) s

/-- Is the cache entry settled (a metadata record or an error object) rather
than a pending promise? -/
def settledEntry : Entry → Bool
  | Entry.prom _ => false
  | Entry.res _ => true
  | Entry.fail _ => true

/-- Events of the purely asynchronous surface: `ffprobe` calls and completions
of their invocations (no `ffprobe.sync`, no periodic clear). -/
def isAsyncEv : Ev → Bool
  | Ev.asyncCall _ _ => true
  | Ev.opComplete _ _ => true
  | _ => false

/-- A parse result that fails the validation at lines 58-61: stdout not
parseable, `streams` missing or not an array, `streams` empty, or `format`
missing. -/
def badShape (data : Option ProbeData) : Prop :=
  data = none ∨
    ∃ info, data = some info ∧
      (info.streams = none ∨ info.streams = some [] ∨ info.format = none)

/-- Invariant of purely asynchronous executions: no blocking invocation is in
flight, operation ids are distinct and below the fresh counter, and every
running operation is the one the cache's pending entry for its path points
to. -/
def AsyncInv (s : St) : Prop :=
  s.syncPending = none ∧
  (s.ops.map Prod.fst).Nodup ∧
  (∀ kv ∈ s.ops, kv.1 < s.nextOp) ∧
  (∀ kv ∈ s.ops, kv.2.running = true → cacheGet s kv.2.path = some (Entry.prom kv.1))

/-- Invariant: while a blocking synchronous invocation for `p` is in flight,
the cache entry for `p` is absent or a pending promise — `ffprobe_sync` only
invokes in exactly those two situations (line 125). -/
def SyncInv (s : St) : Prop :=
  ∀ c p, s.syncPending = some (c, p) →
    ∀ v, cacheGet s p = some v → settledEntry v = false

/-- The parse result of the spec's §8 extraction example: one stream
`{codec_name:"aac", sample_rate:"44100"}`, format
`{format_name:"hls,applehttp", size:"1024", tags:{Artist:"X",
Date:"2001-05-01"}}`. -/
def c7data : ProbeData :=
  { streams := some [[("codec_name", "aac"), ("sample_rate", "44100")]]
    format := some
      { fields := [("format_name", "hls,applehttp"), ("size", "1024")]
        tags := some [("Artist", "X"), ("Date", "2001-05-01")] } }

/-- The metadata record the example extracts to. -/
def c7meta : Metadata :=
  { codec := some "aac", format := some "hls", size := some 1024
    bit_rate := none, sample_rate := some 44100, bit_depth := none
    channels := none, duration := none, title := none, album := none
    artist := some "X", year := some 2001, genre := none }

/-- A well-formed parse result whose `size` and `channels` strings parse to
`0`. -/
def c9data : ProbeData :=
  { streams := some [[("codec_name", "aac"), ("channels", "0")]]
    format := some { fields := [("format_name", "wav"), ("size", "0")], tags := none } }

/-- The metadata record `c9data` extracts to: the zero-valued fields are
`null`. -/
def c9meta : Metadata :=
  { codec := some "aac", format := some "wav", size := none
    bit_rate := none, sample_rate := none, bit_depth := none
    channels := none, duration := none, title := none, album := none
    artist := none, year := none, genre := none }

/-- A parse result with a stream and a format block but no `format_name`
field. -/
def c10data : ProbeData :=
  { streams := some [[("codec_name", "aac")]]
    format := some { fields := [("size", "10")], tags := none } }

/-- A metadata record used as the outcome of a blocking synchronous
invocation in concrete scenarios. -/
def mSync : Metadata :=
  { codec := some "flac", format := some "flac", size := none
    bit_rate := none, sample_rate := none, bit_depth := none
    channels := none, duration := none, title := none, album := none
    artist := none, year := none, genre := none }

/-! ### Association-list lemmas -/

theorem lookupLast_append {α β : Type} [DecidableEq α] (xs ys : List (α × β)) (k : α) :
    lookupLast (xs ++ ys) k =
      match lookupLast ys k with
      | some v => some v
      | none => lookupLast xs k := by
  induction xs with
  | nil => cases hy : lookupLast ys k <;> simp [lookupLast, hy]
  | cons x t ih =>
    simp only [List.cons_append, lookupLast, List.append_eq]
    rw [ih]
    cases hy : lookupLast ys k <;> cases ht : lookupLast t k <;> simp

theorem lookupLast_snoc_self {α β : Type} [DecidableEq α] (xs : List (α × β)) (k : α) (v : β) :
    lookupLast (xs ++ [(k, v)]) k = some v := by
  rw [lookupLast_append]; simp [lookupLast]

theorem lookupLast_snoc_other {α β : Type} [DecidableEq α] (xs : List (α × β))
    {q k : α} (v : β) (h : q ≠ k) :
    lookupLast (xs ++ [(q, v)]) k = lookupLast xs k := by
  rw [lookupLast_append]; simp [lookupLast, h]

theorem lookupLast_constmap {α β : Type} [DecidableEq α] (cs : List α) (v : β) (k : α) :
    lookupLast (cs.map (fun c => (c, v))) k = if k ∈ cs then some v else none := by
  induction cs with
  | nil => simp [lookupLast]
  | cons c0 t ih =>
    simp only [List.map_cons, lookupLast, ih]
    by_cases hkt : k ∈ t
    · simp [hkt]
    · by_cases hc : c0 = k
      · subst hc
        simp [hkt]
      · simp [hkt, hc, Ne.symm hc]

theorem lookupLast_mem {α β : Type} [DecidableEq α] {xs : List (α × β)} {k : α} {v : β}
    (h : lookupLast xs k = some v) : (k, v) ∈ xs := by
  induction xs with
  | nil => simp [lookupLast] at h
  | cons x t ih =>
    simp only [lookupLast] at h
    cases ht : lookupLast t k with
    | some w =>
      simp only [ht] at h
      simp only [Option.some.injEq] at h
      subst h
      exact List.mem_cons_of_mem _ (ih ht)
    | none =>
      simp only [ht] at h
      split_ifs at h with hk
      · simp only [Option.some.injEq] at h
        have hx : x = (k, v) := by
          cases x
          simp_all
        rw [← hx]
        exact List.mem_cons_self _ _

theorem lookupLast_updAt_self {β : Type} (xs : List (Nat × β)) (n : Nat) (f : β → β) :
    lookupLast (updAt xs n f) n = (lookupLast xs n).map f := by
  induction xs with
  | nil => rfl
  | cons kv t ih =>
    simp only [updAt, List.map_cons] at ih ⊢
    by_cases hk : kv.1 = n <;>
      cases ht : lookupLast t n <;>
        simp [lookupLast, hk, ht, ih]

theorem lookupLast_updAt_other {β : Type} (xs : List (Nat × β)) {n k : Nat} (f : β → β)
    (h : k ≠ n) : lookupLast (updAt xs n f) k = lookupLast xs k := by
  induction xs with
  | nil => rfl
  | cons kv t ih =>
    simp only [updAt, List.map_cons] at ih ⊢
    by_cases hk : kv.1 = n <;>
      cases ht : lookupLast t k <;>
        simp [lookupLast, hk, ht, ih, h, Ne.symm h]

theorem updAt_map_fst {β : Type} (xs : List (Nat × β)) (n : Nat) (f : β → β) :
    (updAt xs n f).map Prod.fst = xs.map Prod.fst := by
  induction xs with
  | nil => rfl
  | cons kv t ih =>
    simp only [updAt, List.map_cons] at ih ⊢
    by_cases hk : kv.1 = n <;> simp [hk, ih]

theorem mem_updAt {β : Type} {xs : List (Nat × β)} {n : Nat} {f : β → β}
    {kv : Nat × β} (h : kv ∈ updAt xs n f) :
    ∃ kw ∈ xs, kv = if kw.1 = n then (kw.1, f kw.2) else kw := by
  simp only [updAt, List.mem_map] at h
  rcases h with ⟨kw, hkw, heq⟩
  exact ⟨kw, hkw, heq.symm⟩

theorem length_filter_le_one {β : Type} {l : List (Nat × β)} {P : Nat × β → Bool} {n : Nat}
    (hnd : (l.map Prod.fst).Nodup) (hall : ∀ kv ∈ l.filter P, kv.1 = n) :
    (l.filter P).length ≤ 1 := by
  have hsub : List.Sublist ((l.filter P).map Prod.fst) (l.map Prod.fst) :=
    List.Sublist.map Prod.fst (List.filter_sublist l)
  have hnd2 : ((l.filter P).map Prod.fst).Nodup := hnd.sublist hsub
  cases hfl : l.filter P with
  | nil => simp
  | cons a t =>
    cases t with
    | nil => simp
    | cons b u =>
      exfalso
      have ha : a.1 = n := hall a (by rw [hfl]; exact List.mem_cons_self _ _)
      have hb : b.1 = n := hall b (by rw [hfl]; simp)
      rw [hfl] at hnd2
      simp only [List.map_cons, List.nodup_cons, List.mem_cons] at hnd2
      exact hnd2.1 (Or.inl (by rw [ha, hb]))

/-! ### Step-characterization lemmas -/

theorem step_asyncCall_none {s : St} {p : String} (c : Nat)
    (hsp : s.syncPending = none) (hc : cacheGet s p = none) :
    step s (Ev.asyncCall c p) =
      { s with
        cache := cacheSet s.cache p (Entry.prom s.nextOp)
        ops := s.ops ++ [(s.nextOp, { path := p, running := true, prom := PromState.pending })]
        nextOp := s.nextOp + 1
        callers := s.callers ++ [(c, Hold.awaiting s.nextOp)] } := by
  simp [step, hsp, hc]

theorem step_asyncCall_prom {s : St} {p : String} {n : Nat} (c : Nat)
    (hsp : s.syncPending = none) (hc : cacheGet s p = some (Entry.prom n)) :
    step s (Ev.asyncCall c p) =
      { s with callers := s.callers ++ [(c, Hold.awaiting n)] } := by
  simp [step, hsp, hc]

theorem step_asyncCall_res {s : St} {p : String} {m : Metadata} (c : Nat)
    (hsp : s.syncPending = none) (hc : cacheGet s p = some (Entry.res m)) :
    step s (Ev.asyncCall c p) =
      { s with callers := s.callers ++ [(c, Hold.settled (Except.ok m))] } := by
  simp [step, hsp, hc]

theorem step_asyncCall_fail {s : St} {p : String} {e : PErr} (c : Nat)
    (hsp : s.syncPending = none) (hc : cacheGet s p = some (Entry.fail e)) :
    step s (Ev.asyncCall c p) =
      { s with callers := s.callers ++ [(c, Hold.settled (Except.error e))] } := by
  simp [step, hsp, hc]

theorem step_syncCall_res {s : St} {p : String} {m : Metadata} (c : Nat)
    (hsp : s.syncPending = none) (hc : cacheGet s p = some (Entry.res m)) :
    step s (Ev.syncCall c p) =
      { s with callers := s.callers ++ [(c, Hold.settled (Except.ok m))] } := by
  simp [step, hsp, hc]

theorem step_syncCall_fail {s : St} {p : String} {e : PErr} (c : Nat)
    (hsp : s.syncPending = none) (hc : cacheGet s p = some (Entry.fail e)) :
    step s (Ev.syncCall c p) =
      { s with callers := s.callers ++ [(c, Hold.settled (Except.error e))] } := by
  simp [step, hsp, hc]

theorem step_syncCall_invoke_none {s : St} {p : String} (c : Nat)
    (hsp : s.syncPending = none) (hc : cacheGet s p = none) :
    step s (Ev.syncCall c p) = { s with syncPending := some (c, p) } := by
  simp [step, hsp, hc]

theorem step_syncCall_invoke_prom {s : St} {p : String} {n : Nat} (c : Nat)
    (hsp : s.syncPending = none) (hc : cacheGet s p = some (Entry.prom n)) :
    step s (Ev.syncCall c p) = { s with syncPending := some (c, p) } := by
  simp [step, hsp, hc]

theorem step_syncReturn {s : St} {c : Nat} {p : String} (out : Except PErr Metadata)
    (hsp : s.syncPending = some (c, p)) :
    step s (Ev.syncReturn out) =
      { s with
        cache := cacheSet s.cache p (entryOfOutcome out)
        callers := s.callers ++ [(c, Hold.settled out)]
        syncPending := none } := by
  simp [step, hsp]

theorem step_clear {s : St} (hsp : s.syncPending = none) :
    step s Ev.clear = { s with cache := [] } := by
  simp [step, hsp]

theorem step_opComplete_fail {s : St} {n : Nat} {o : OpData} (diag : String)
    (hsp : s.syncPending = none) (ho : opState s n = some o) (hr : o.running = true) :
    step s (Ev.opComplete n (RawOutcome.fail diag)) =
      { s with
        cache := cacheSet s.cache o.path (Entry.fail (PErr.invocation diag))
        ops := setOp s.ops n (PromState.rejected (PErr.invocation diag)) } := by
  simp [step, hsp, ho, hr]

theorem step_opComplete_ok {s : St} {n : Nat} {o : OpData} {data : Option ProbeData}
    {m : Metadata} (hsp : s.syncPending = none) (ho : opState s n = some o)
    (hr : o.running = true) (hx : extract data = Except.ok m) :
    step s (Ev.opComplete n (RawOutcome.success data)) =
      { s with
        cache := cacheSet s.cache o.path (Entry.res m)
        ops := setOp s.ops n (PromState.fulfilled m) } := by
  simp [step, hsp, ho, hr, hx]

theorem step_opComplete_exterr {s : St} {n : Nat} {o : OpData} {data : Option ProbeData}
    {ee : ExtErr} (hsp : s.syncPending = none) (ho : opState s n = some o)
    (hr : o.running = true) (hx : extract data = Except.error ee) :
    step s (Ev.opComplete n (RawOutcome.success data)) =
      { s with ops := setOp s.ops n (PromState.rejected (PErr.extraction ee)) } := by
  simp [step, hsp, ho, hr, hx]

theorem step_opComplete_stale {s : St} {n : Nat} {o : OpData} (out : RawOutcome)
    (hsp : s.syncPending = none) (ho : opState s n = some o) (hr : o.running = false) :
    step s (Ev.opComplete n out) = s := by
  simp [step, hsp, ho, hr]

theorem step_opComplete_unknown {s : St} {n : Nat} (out : RawOutcome)
    (hsp : s.syncPending = none) (ho : opState s n = none) :
    step s (Ev.opComplete n out) = s := by
  simp [step, hsp, ho]

theorem step_blocked {s : St} {cp : Nat × String} {e : Ev}
    (hsp : s.syncPending = some cp) (hne : ∀ out, e ≠ Ev.syncReturn out) :
    step s e = s := by
  cases e <;> simp [step, hsp]
  exact absurd rfl (hne _)

/-! ### The synchronous-invocation invariant -/

theorem SyncInv_step {s : St} (h : SyncInv s) (e : Ev) : SyncInv (step s e) := by
  cases hsp : s.syncPending with
  | some cp =>
    obtain ⟨c0, p0⟩ := cp
    cases e with
    | syncReturn out =>
      rw [step_syncReturn out hsp]
      intro c p hp
      cases hp
    | asyncCall c p =>
      rw [step_blocked hsp (by intro out hne; cases hne)]
      exact h
    | opComplete n out =>
      rw [step_blocked hsp (by intro out hne; cases hne)]
      exact h
    | syncCall c p =>
      rw [step_blocked hsp (by intro out hne; cases hne)]
      exact h
    | clear =>
      rw [step_blocked hsp (by intro out hne; cases hne)]
      exact h
  | none =>
    cases e with
    | syncCall c p =>
      cases hc : cacheGet s p with
      | none =>
        rw [step_syncCall_invoke_none c hsp hc]
        intro c1 p1 hp v hv
        cases hp
        rw [show cacheGet { s with syncPending := some (c, p) } p = cacheGet s p from rfl, hc] at hv
        cases hv
      | some entry =>
        cases entry with
        | prom n =>
          rw [step_syncCall_invoke_prom c hsp hc]
          intro c1 p1 hp v hv
          cases hp
          rw [show cacheGet { s with syncPending := some (c, p) } p = cacheGet s p from rfl, hc] at hv
          cases hv
          rfl
        | res m =>
          rw [step_syncCall_res c hsp hc]
          intro c1 p1 hp
          simp [hsp] at hp
        | fail er =>
          rw [step_syncCall_fail c hsp hc]
          intro c1 p1 hp
          simp [hsp] at hp
    | asyncCall c p =>
      cases hc : cacheGet s p with
      | none =>
        rw [step_asyncCall_none c hsp hc]
        intro c1 p1 hp
        simp [hsp] at hp
      | some entry =>
        cases entry with
        | prom n =>
          rw [step_asyncCall_prom c hsp hc]
          intro c1 p1 hp
          simp [hsp] at hp
        | res m =>
          rw [step_asyncCall_res c hsp hc]
          intro c1 p1 hp
          simp [hsp] at hp
        | fail er =>
          rw [step_asyncCall_fail c hsp hc]
          intro c1 p1 hp
          simp [hsp] at hp
    | opComplete n out =>
      cases ho : opState s n with
      | none =>
        rw [step_opComplete_unknown out hsp ho]
        exact h
      | some o =>
        cases hr : o.running with
        | false =>
          rw [step_opComplete_stale out hsp ho hr]
          exact h
        | true =>
          cases out with
          | fail diag =>
            rw [step_opComplete_fail diag hsp ho hr]
            intro c1 p1 hp
            simp [hsp] at hp
          | success data =>
            cases hx : extract data with
            | ok m =>
              rw [step_opComplete_ok hsp ho hr hx]
              intro c1 p1 hp
              simp [hsp] at hp
            | error ee =>
              rw [step_opComplete_exterr hsp ho hr hx]
              intro c1 p1 hp
              simp [hsp] at hp
    | syncReturn out =>
      have : step s (Ev.syncReturn out) = s := by simp [step, hsp]
      rw [this]
      exact h
    | clear =>
      rw [step_clear hsp]
      intro c1 p1 hp
      simp [hsp] at hp

theorem SyncInv_foldl {s : St} (h : SyncInv s) (evs : List Ev) :
    SyncInv (evs.foldl step s) := by
  induction evs generalizing s with
  | nil => exact h
  | cons e t ih => exact ih (SyncInv_step h e)

theorem SyncInv_run (evs : List Ev) : SyncInv (run evs) :=
  SyncInv_foldl (by intro c p hp; cases hp) evs

/-! ### The coalescing invariant for purely asynchronous executions -/

theorem AsyncInv_init : AsyncInv initSt := by
  refine ⟨rfl, List.nodup_nil, ?_, ?_⟩ <;> intro kv hkv <;> cases hkv

theorem AsyncInv_step {s : St} (h : AsyncInv s) {e : Ev} (he : isAsyncEv e = true) :
    AsyncInv (step s e) := by
  obtain ⟨hsp, hnd, hbound, hrun⟩ := h
  cases e with
  | syncCall c p => cases he
  | syncReturn out => cases he
  | clear => cases he
  | asyncCall c p =>
    cases hc : cacheGet s p with
    | none =>
      rw [step_asyncCall_none c hsp hc]
      refine ⟨hsp, ?_, ?_, ?_⟩
      · simp only [List.map_append, List.map_cons, List.map_nil]
        rw [List.nodup_append]
        refine ⟨hnd, List.nodup_singleton _, ?_⟩
        intro a ha hb
        simp only [List.mem_singleton] at hb
        subst hb
        obtain ⟨kv, hkv, hfst⟩ := List.mem_map.mp ha
        exact absurd (hfst ▸ hbound kv hkv) (lt_irrefl _)
      · intro kv hkv
        rcases List.mem_append.mp hkv with hmem | hmem
        · exact Nat.lt_succ_of_lt (hbound kv hmem)
        · simp only [List.mem_singleton] at hmem
          subst hmem
          exact Nat.lt_succ_self _
      · intro kv hkv hr
        rcases List.mem_append.mp hkv with hmem | hmem
        · have hold := hrun kv hmem hr
          have hne : kv.2.path ≠ p := by
            intro hpp
            rw [hpp, hc] at hold
            cases hold
          simp only [cacheGet, cacheSet]
          rw [lookupLast_snoc_other _ _ (fun hpp => hne hpp.symm)]
          exact hold
        · simp only [List.mem_singleton] at hmem
          subst hmem
          simp only [cacheGet, cacheSet]
          rw [lookupLast_snoc_self]
    | some entry =>
      cases entry with
      | prom n =>
        rw [step_asyncCall_prom c hsp hc]
        exact ⟨hsp, hnd, hbound, hrun⟩
      | res m =>
        rw [step_asyncCall_res c hsp hc]
        exact ⟨hsp, hnd, hbound, hrun⟩
      | fail er =>
        rw [step_asyncCall_fail c hsp hc]
        exact ⟨hsp, hnd, hbound, hrun⟩
  | opComplete n out =>
    cases ho : opState s n with
    | none =>
      rw [step_opComplete_unknown out hsp ho]
      exact ⟨hsp, hnd, hbound, hrun⟩
    | some o =>
      cases hr : o.running with
      | false =>
        rw [step_opComplete_stale out hsp ho hr]
        exact ⟨hsp, hnd, hbound, hrun⟩
      | true =>
        have hmemo : (n, o) ∈ s.ops := lookupLast_mem ho
        have hco : cacheGet s o.path = some (Entry.prom n) := hrun (n, o) hmemo hr
        have hpreserve : ∀ (pr : PromState) (newCache : List (String × Entry)),
            (∀ q, q ≠ o.path → lookupLast newCache q = lookupLast s.cache q) →
            (∀ kv ∈ setOp s.ops n pr, kv.1 < s.nextOp) ∧
            ((setOp s.ops n pr).map Prod.fst).Nodup ∧
            (∀ kv ∈ setOp s.ops n pr, kv.2.running = true →
              lookupLast newCache kv.2.path = some (Entry.prom kv.1)) := by
          intro pr newCache hcache
          refine ⟨?_, ?_, ?_⟩
          · intro kv hkv
            obtain ⟨kw, hkw, hkveq⟩ := mem_updAt hkv
            have : kv.1 = kw.1 := by
              rw [hkveq]
              split <;> rfl
            rw [this]
            exact hbound kw hkw
          · rw [setOp, updAt_map_fst]
            exact hnd
          · intro kv hkv hrkv
            obtain ⟨kw, hkw, hkveq⟩ := mem_updAt hkv
            by_cases hkwn : kw.1 = n
            · rw [hkveq] at hrkv
              simp [hkwn] at hrkv
            · rw [if_neg hkwn] at hkveq
              subst hkveq
              have hold := hrun kv hkw hrkv
              have hne : kv.2.path ≠ o.path := by
                intro hpp
                rw [hpp, hco] at hold
                cases hold
                exact hkwn rfl
              rw [hcache _ hne]
              exact hold
        cases out with
        | fail diag =>
          rw [step_opComplete_fail diag hsp ho hr]
          obtain ⟨hb, hn, hruns⟩ := hpreserve (PromState.rejected (PErr.invocation diag))
            (cacheSet s.cache o.path (Entry.fail (PErr.invocation diag)))
            (fun q hq => lookupLast_snoc_other _ _ (fun hpp => hq hpp.symm))
          exact ⟨hsp, hn, hb, hruns⟩
        | success data =>
          cases hx : extract data with
          | ok m =>
            rw [step_opComplete_ok hsp ho hr hx]
            obtain ⟨hb, hn, hruns⟩ := hpreserve (PromState.fulfilled m)
              (cacheSet s.cache o.path (Entry.res m))
              (fun q hq => lookupLast_snoc_other _ _ (fun hpp => hq hpp.symm))
            exact ⟨hsp, hn, hb, hruns⟩
          | error ee =>
            rw [step_opComplete_exterr hsp ho hr hx]
            obtain ⟨hb, hn, hruns⟩ := hpreserve (PromState.rejected (PErr.extraction ee))
              s.cache (fun q hq => rfl)
            exact ⟨hsp, hn, hb, hruns⟩

theorem AsyncInv_foldl {s : St} (h : AsyncInv s) {evs : List Ev}
    (hevs : ∀ e ∈ evs, isAsyncEv e = true) : AsyncInv (evs.foldl step s) := by
  induction evs generalizing s with
  | nil => exact h
  | cons e t ih =>
    exact ih (AsyncInv_step h (hevs e (List.mem_cons_self _ _)))
      (fun e2 he2 => hevs e2 (List.mem_cons_of_mem _ he2))

theorem inFlight_le_one {s : St} (h : AsyncInv s) (p : String) : inFlight s p ≤ 1 := by
  obtain ⟨hsp, hnd, hbound, hrun⟩ := h
  have hmem : ∀ kv ∈ s.ops.filter (fun kv => kv.2.running && kv.2.path = p),
      cacheGet s p = some (Entry.prom kv.1) := by
    intro kv hkv
    have hf := List.mem_filter.mp hkv
    have hr := hf.2
    simp only [Bool.and_eq_true, decide_eq_true_eq] at hr
    have := hrun kv hf.1 hr.1
    rwa [hr.2] at this
  have hlen : (s.ops.filter (fun kv => kv.2.running && kv.2.path = p)).length ≤ 1 := by
    cases hfl : s.ops.filter (fun kv => kv.2.running && kv.2.path = p) with
    | nil => simp
    | cons a t =>
      have ha : cacheGet s p = some (Entry.prom a.1) :=
        hmem a (by rw [hfl]; exact List.mem_cons_self _ _)
      rw [← hfl]
      apply length_filter_le_one hnd
      intro kv hkv
      have hk := hmem kv hkv
      rw [ha] at hk
      simp only [Option.some.injEq, Entry.prom.injEq] at hk
      exact hk.symm
  simpa [inFlight, hsp] using hlen

/-! ### Extraction lemmas -/

theorem intOrNull_zero {v : String} (h : parseIntJS v = some 0) :
    intOrNull (some v) = none := by
  simp [intOrNull, h]

theorem extract_ok_fields {info : ProbeData} {st : Obj} {rest : List Obj}
    {fo : FormatObj} {m : Metadata} (hs : info.streams = some (st :: rest))
    (hf : info.format = some fo) (h : extract (some info) = Except.ok m) :
    m.format.isSome = true ∧
    m.size = intOrNull (oget (keysToLower fo.fields) "size") ∧
    m.bit_rate = intOrNull (oget (keysToLower fo.fields) "bit_rate") ∧
    m.sample_rate = intOrNull (oget (keysToLower st) "sample_rate") ∧
    m.bit_depth = intOrNull (oget (keysToLower st) "bits_per_raw_sample") ∧
    m.channels = intOrNull (oget (keysToLower st) "channels") ∧
    m.duration = intOrNull (oget (keysToLower st) "duration") := by
  simp only [extract, hs, hf] at h
  cases hfn : oget (keysToLower fo.fields) "format_name" with
  | none =>
    rw [hfn] at h
    cases h
  | some fn =>
    rw [hfn] at h
    simp only [Except.ok.injEq] at h
    subst h
    simp

theorem extract_ok_format {data : Option ProbeData} {m : Metadata}
    (h : extract data = Except.ok m) : m.format ≠ none := by
  cases data with
  | none => cases h
  | some info =>
    cases hs : info.streams with
    | none =>
      rw [extract, hs] at h
      cases h
    | some l =>
      cases l with
      | nil =>
        rw [extract, hs] at h
        cases h
      | cons st rest =>
        cases hf : info.format with
        | none =>
          rw [extract, hs, hf] at h
          cases h
        | some fo =>
          have hfmt := (extract_ok_fields hs hf h).1
          intro hnone
          rw [hnone] at hfmt
          cases hfmt

theorem extract_missing_format_name {info : ProbeData} {st : Obj} {rest : List Obj}
    {fo : FormatObj} (hs : info.streams = some (st :: rest)) (hf : info.format = some fo)
    (hfn : oget (keysToLower fo.fields) "format_name" = none) :
    extract (some info) = Except.error ExtErr.fault := by
  simp [extract, hs, hf, hfn]

theorem extract_badShape {data : Option ProbeData} (h : badShape data) :
    ∃ e, extract data = Except.error e := by
  rcases h with rfl | ⟨info, rfl, hcase⟩
  · exact ⟨ExtErr.unparseable, rfl⟩
  · rcases hcase with hs | hs | hf
    · exact ⟨ExtErr.incomplete, by simp [extract, hs]⟩
    · exact ⟨ExtErr.incomplete, by simp [extract, hs]⟩
    · cases hs : info.streams with
      | none => exact ⟨ExtErr.incomplete, by simp [extract, hs]⟩
      | some l =>
        cases l with
        | nil => exact ⟨ExtErr.incomplete, by simp [extract, hs]⟩
        | cons a t => exact ⟨ExtErr.incomplete, by simp [extract, hs, hf]⟩

/-! ### Coalescing helpers -/

theorem applyAsyncCalls_attach {p : String} {n : Nat} (cs : List Nat) :
    ∀ s : St, s.syncPending = none → cacheGet s p = some (Entry.prom n) →
    applyAsyncCalls s p cs =
      { s with callers := s.callers ++ cs.map (fun c => (c, Hold.awaiting n)) } := by
  induction cs with
  | nil =>
    intro s _ _
    simp [applyAsyncCalls]
  | cons c0 t ih =>
    intro s hsp hc
    have h1 := step_asyncCall_prom c0 hsp hc
    have h2 := ih { s with callers := s.callers ++ [(c0, Hold.awaiting n)] } hsp hc
    rw [show applyAsyncCalls s p (c0 :: t)
        = applyAsyncCalls (step s (Ev.asyncCall c0 p)) p t from rfl, h1, h2]
    simp

theorem lookupLast_batch {α β : Type} [DecidableEq α] (xs : List (α × β)) (c0 : α)
    (cs : List α) (v : β) {k : α} (hk : k ∈ c0 :: cs) :
    lookupLast ((xs ++ [(c0, v)]) ++ cs.map (fun c => (c, v))) k = some v := by
  rw [lookupLast_append, lookupLast_constmap]
  by_cases hkcs : k ∈ cs
  · simp [hkcs]
  · have hk0 : k = c0 := by
      rcases List.mem_cons.mp hk with h | h
      · exact h
      · exact absurd h hkcs
    subst hk0
    simp [hkcs, lookupLast_snoc_self]

theorem callerResult_opComplete {s : St} {c n : Nat} {o : OpData} (out : RawOutcome)
    (hsp : s.syncPending = none) (hh : callerHold s c = some (Hold.awaiting n))
    (ho : opState s n = some o) (hr : o.running = true) :
    callerResult (step s (Ev.opComplete n out)) c = some (outcomeOfRaw out) := by
  have hh2 : lookupLast s.callers c = some (Hold.awaiting n) := hh
  have ho2 : lookupLast s.ops n = some o := ho
  have key : ∀ (pr : PromState) (newCache : List (String × Entry)),
      callerResult { s with cache := newCache, ops := setOp s.ops n pr } c =
        match pr with
        | PromState.fulfilled m => some (Except.ok m)
        | PromState.rejected e => some (Except.error e)
        | PromState.pending => none := by
    intro pr newCache
    have hop : lookupLast (setOp s.ops n pr) n
        = some { o with running := false, prom := pr } := by
      rw [setOp, lookupLast_updAt_self, ho2]
      rfl
    simp [callerResult, callerHold, opState, hh2, hop]
  cases out with
  | fail diag =>
    rw [step_opComplete_fail diag hsp ho hr, key]
    simp [outcomeOfRaw]
  | success data =>
    cases hx : extract data with
    | ok m =>
      rw [step_opComplete_ok hsp ho hr hx, key]
      simp [outcomeOfRaw, hx]
    | error ee =>
      rw [step_opComplete_exterr hsp ho hr hx, key]
      simp [outcomeOfRaw, hx]

/-! ### The claims -/

/-- **C1.** For an identifier with no cache entry, a batch of `N ≥ 1`
back-to-back asynchronous `ffprobe` calls (made while the first call's
operation is still pending) starts exactly one invocation (`ops` grows by
one), leaves a `Pending` entry pointing at that operation, hands every caller
the same pending promise, and when the operation completes all `N` callers
settle with the identical outcome. -/
theorem ffprobe_async_coalescing (s : St) (p : String) (c0 : Nat) (cs : List Nat)
    (hsp : s.syncPending = none) (hc : cacheGet s p = none) :
    (applyAsyncCalls s p (c0 :: cs)).ops.length = s.ops.length + 1 ∧
    cacheGet (applyAsyncCalls s p (c0 :: cs)) p = some (Entry.prom s.nextOp) ∧
    (∀ c ∈ c0 :: cs, callerHold (applyAsyncCalls s p (c0 :: cs)) c
        = some (Hold.awaiting s.nextOp)) ∧
    (∀ out, ∀ c ∈ c0 :: cs,
      callerResult (step (applyAsyncCalls s p (c0 :: cs)) (Ev.opComplete s.nextOp out)) c
        = some (outcomeOfRaw out)) := by
  have hunfold : applyAsyncCalls s p (c0 :: cs)
      = applyAsyncCalls (step s (Ev.asyncCall c0 p)) p cs := rfl
  rw [step_asyncCall_none c0 hsp hc] at hunfold
  have hattach := applyAsyncCalls_attach cs
    { s with
      cache := cacheSet s.cache p (Entry.prom s.nextOp)
      ops := s.ops ++ [(s.nextOp, { path := p, running := true, prom := PromState.pending })]
      nextOp := s.nextOp + 1
      callers := s.callers ++ [(c0, Hold.awaiting s.nextOp)] }
    hsp (lookupLast_snoc_self s.cache p (Entry.prom s.nextOp))
  rw [hattach] at hunfold
  refine ⟨?_, ?_, ?_, ?_⟩
  · rw [hunfold]
    simp
  · rw [hunfold]
    exact lookupLast_snoc_self s.cache p (Entry.prom s.nextOp)
  · intro c hcmem
    rw [hunfold]
    exact lookupLast_batch s.callers c0 cs (Hold.awaiting s.nextOp) hcmem
  · intro out c hcmem
    rw [hunfold]
    exact callerResult_opComplete out hsp
      (lookupLast_batch s.callers c0 cs (Hold.awaiting s.nextOp) hcmem)
      (lookupLast_snoc_self s.ops s.nextOp
        { path := p, running := true, prom := PromState.pending })
      rfl

/-- Witness for C1 at a concrete state: two concurrent callers for a fresh
identifier share one operation and one outcome. -/
theorem ffprobe_async_coalescing_witness :
    (applyAsyncCalls initSt "a" [0, 1]).ops.length = initSt.ops.length + 1 ∧
    cacheGet (applyAsyncCalls initSt "a" [0, 1]) "a" = some (Entry.prom 0) ∧
    callerHold (applyAsyncCalls initSt "a" [0, 1]) 1 = some (Hold.awaiting 0) ∧
    callerResult (step (applyAsyncCalls initSt "a" [0, 1])
        (Ev.opComplete 0 (RawOutcome.fail "boom"))) 1
      = some (outcomeOfRaw (RawOutcome.fail "boom")) := by
  obtain ⟨h1, h2, h3, h4⟩ := ffprobe_async_coalescing initSt "a" 0 [1] rfl rfl
  exact ⟨h1, h2, h3 1 (by simp), h4 (RawOutcome.fail "boom") 1 (by simp)⟩

/-- **C2.** `ffprobe.sync`: on an absent or still-`Pending` entry it starts
its own blocking invocation (leaving the asynchronous operations untouched —
it does not wait on them) and, when that invocation returns, overwrites the
cache entry with its outcome and delivers that outcome to the caller; on a
`Resolved` entry it returns the stored metadata and on a `Failed` entry it
throws the stored error, in both cases without invoking and without touching
the cache. -/
theorem ffprobe_sync_semantics (s : St) (c : Nat) (p : String)
    (hsp : s.syncPending = none) :
    ((cacheGet s p = none ∨ (∃ n, cacheGet s p = some (Entry.prom n))) →
      (step s (Ev.syncCall c p)).syncPending = some (c, p) ∧
      (step s (Ev.syncCall c p)).ops = s.ops ∧
      (step s (Ev.syncCall c p)).cache = s.cache ∧
      (∀ out,
        cacheGet (step (step s (Ev.syncCall c p)) (Ev.syncReturn out)) p
            = some (entryOfOutcome out) ∧
        callerResult (step (step s (Ev.syncCall c p)) (Ev.syncReturn out)) c = some out ∧
        (step (step s (Ev.syncCall c p)) (Ev.syncReturn out)).syncPending = none)) ∧
    (∀ m, cacheGet s p = some (Entry.res m) →
      (step s (Ev.syncCall c p)).syncPending = none ∧
      (step s (Ev.syncCall c p)).ops = s.ops ∧
      (step s (Ev.syncCall c p)).cache = s.cache ∧
      callerResult (step s (Ev.syncCall c p)) c = some (Except.ok m)) ∧
    (∀ e, cacheGet s p = some (Entry.fail e) →
      (step s (Ev.syncCall c p)).syncPending = none ∧
      (step s (Ev.syncCall c p)).ops = s.ops ∧
      (step s (Ev.syncCall c p)).cache = s.cache ∧
      callerResult (step s (Ev.syncCall c p)) c = some (Except.error e)) := by
  refine ⟨?_, ?_, ?_⟩
  · intro hcase
    have hinv : step s (Ev.syncCall c p) = { s with syncPending := some (c, p) } := by
      rcases hcase with hc | ⟨n, hc⟩
      · exact step_syncCall_invoke_none c hsp hc
      · exact step_syncCall_invoke_prom c hsp hc
    rw [hinv]
    refine ⟨rfl, rfl, rfl, ?_⟩
    intro out
    rw [step_syncReturn out rfl]
    refine ⟨lookupLast_snoc_self _ _ _, ?_, rfl⟩
    simp [callerResult, callerHold, lookupLast_snoc_self]
  · intro m hc
    rw [step_syncCall_res c hsp hc]
    refine ⟨hsp, rfl, rfl, ?_⟩
    simp [callerResult, callerHold, lookupLast_snoc_self]
  · intro e hc
    rw [step_syncCall_fail c hsp hc]
    refine ⟨hsp, rfl, rfl, ?_⟩
    simp [callerResult, callerHold, lookupLast_snoc_self]

/-- Witness for C2 at concrete states: a blocking invocation on a `Pending`
entry (made by an async call), and direct answers on `Resolved` and `Failed`
entries. -/
theorem ffprobe_sync_semantics_witness :
    (step (run [Ev.asyncCall 0 "a"]) (Ev.syncCall 1 "a")).syncPending = some (1, "a") ∧
    cacheGet (step (step (run [Ev.asyncCall 0 "a"]) (Ev.syncCall 1 "a"))
        (Ev.syncReturn (Except.ok mSync))) "a" = some (entryOfOutcome (Except.ok mSync)) ∧
    callerResult (step (run [Ev.asyncCall 0 "a", Ev.opComplete 0
        (RawOutcome.success (some c7data))]) (Ev.syncCall 1 "a")) 1
      = some (Except.ok c7meta) ∧
    callerResult (step (run [Ev.asyncCall 0 "a", Ev.opComplete 0
        (RawOutcome.fail "boom")]) (Ev.syncCall 1 "a")) 1
      = some (Except.error (PErr.invocation "boom")) := by
  obtain ⟨h1, -, -⟩ := ffprobe_sync_semantics (run [Ev.asyncCall 0 "a"]) 1 "a" rfl
  obtain ⟨ha, -, -, hout⟩ := h1 (Or.inr ⟨0, rfl⟩)
  obtain ⟨-, h2, -⟩ := ffprobe_sync_semantics
    (run [Ev.asyncCall 0 "a", Ev.opComplete 0 (RawOutcome.success (some c7data))]) 1 "a" rfl
  obtain ⟨-, -, h3⟩ := ffprobe_sync_semantics
    (run [Ev.asyncCall 0 "a", Ev.opComplete 0 (RawOutcome.fail "boom")]) 1 "a" rfl
  exact ⟨ha, (hout (Except.ok mSync)).1,
    (h2 c7meta (by rfl)).2.2.2, (h3 (PErr.invocation "boom") (by rfl)).2.2.2⟩

/-- **C3 (counterexample).** The state reached by `probe("a")` followed by
`probe.sync("a")` (while the async operation is still running) has two
simultaneous in-flight invocations for `"a"`: the claim "at most one
in-flight invocation per identifier in every state reachable by any
interleaving of probe and probe.sync calls" is false. -/
theorem sync_call_breaks_single_inflight :
    inFlight (run [Ev.asyncCall 0 "a", Ev.syncCall 1 "a"]) "a" = 2 ∧
    ¬ inFlight (run [Ev.asyncCall 0 "a", Ev.syncCall 1 "a"]) "a" ≤ 1 := by
  refine ⟨rfl, by decide⟩

/-- **C3 (amended).** In every state reachable by interleavings of `probe`
calls and their completions alone (no `probe.sync`), at most one in-flight
invocation exists per identifier; a `probe.sync` call on an absent or
`Pending` entry deliberately performs its own concurrent blocking invocation,
so two invocations for the same identifier can then be in flight at once. -/
theorem async_only_single_inflight (evs : List Ev)
    (h : ∀ e ∈ evs, isAsyncEv e = true) (p : String) :
    inFlight (run evs) p ≤ 1 :=
  inFlight_le_one (AsyncInv_foldl AsyncInv_init h) p

/-- Witness for the amended C3 at a concrete asynchronous-only run. -/
theorem async_only_single_inflight_witness :
    inFlight (run [Ev.asyncCall 0 "a", Ev.asyncCall 1 "a",
      Ev.opComplete 0 (RawOutcome.fail "x"), Ev.asyncCall 2 "a"]) "a" ≤ 1 :=
  async_only_single_inflight _ (by decide) "a"

/-- **C4 (counterexample).** A `Resolved` entry is not always immutable: after
`probe("a")` starts an async invocation, `probe.sync("a")` overwrites the
`Pending` entry with its own result `mSync`; when the older async
invocation's completion handler finally runs, it overwrites that `Resolved`
entry with its own metadata. -/
theorem resolved_entry_overwritten_counterexample :
    cacheGet (run [Ev.asyncCall 0 "a", Ev.syncCall 1 "a",
        Ev.syncReturn (Except.ok mSync)]) "a" = some (Entry.res mSync) ∧
    cacheGet (run [Ev.asyncCall 0 "a", Ev.syncCall 1 "a",
        Ev.syncReturn (Except.ok mSync),
        Ev.opComplete 0 (RawOutcome.success (some c7data))]) "a"
      = some (Entry.res c7meta) ∧
    mSync ≠ c7meta := by
  refine ⟨rfl, rfl, by decide⟩

/-- **C4 (amended).** Once a cache entry is `Resolved` or `Failed`, no
subsequent `probe` or `probe.sync` call processing changes it; the only
events that can touch it are the periodic clear and the completion handler of
an asynchronous invocation targeting the same identifier that was started
before the entry settled (the sync-overwrite race). -/
theorem settled_entry_preserved (evs : List Ev) (e : Ev) (p : String) (v : Entry)
    (hsettled : settledEntry v = true)
    (hv : cacheGet (run evs) p = some v)
    (hnc : e ≠ Ev.clear)
    (hnop : ∀ n out, e = Ev.opComplete n out →
      ∀ o, opState (run evs) n = some o → o.path ≠ p) :
    cacheGet (step (run evs) e) p = some v := by
  have hsync := SyncInv_run evs
  cases hsp : (run evs).syncPending with
  | some cp =>
    obtain ⟨c0, p0⟩ := cp
    cases e with
    | syncReturn out =>
      rw [step_syncReturn out hsp]
      have hne : p0 ≠ p := by
        intro hpp
        subst hpp
        have := hsync c0 p0 hsp v hv
        rw [hsettled] at this
        cases this
      simp only [cacheGet, cacheSet]
      rw [lookupLast_snoc_other _ _ hne]
      exact hv
    | asyncCall c q =>
      rw [step_blocked hsp (by intro out hne2; cases hne2)]
      exact hv
    | opComplete n out =>
      rw [step_blocked hsp (by intro out2 hne2; cases hne2)]
      exact hv
    | syncCall c q =>
      rw [step_blocked hsp (by intro out hne2; cases hne2)]
      exact hv
    | clear =>
      rw [step_blocked hsp (by intro out hne2; cases hne2)]
      exact hv
  | none =>
    cases e with
    | asyncCall c q =>
      cases hcq : cacheGet (run evs) q with
      | none =>
        rw [step_asyncCall_none c hsp hcq]
        have hne : q ≠ p := by
          intro hpp
          rw [hpp, hv] at hcq
          cases hcq
        simp only [cacheGet, cacheSet]
        rw [lookupLast_snoc_other _ _ hne]
        exact hv
      | some entry =>
        cases entry with
        | prom n =>
          rw [step_asyncCall_prom c hsp hcq]
          exact hv
        | res m =>
          rw [step_asyncCall_res c hsp hcq]
          exact hv
        | fail er =>
          rw [step_asyncCall_fail c hsp hcq]
          exact hv
    | opComplete n out =>
      cases ho : opState (run evs) n with
      | none =>
        rw [step_opComplete_unknown out hsp ho]
        exact hv
      | some o =>
        cases hr : o.running with
        | false =>
          rw [step_opComplete_stale out hsp ho hr]
          exact hv
        | true =>
          have hne : o.path ≠ p := hnop n out rfl o ho
          cases out with
          | fail diag =>
            rw [step_opComplete_fail diag hsp ho hr]
            simp only [cacheGet, cacheSet]
            rw [lookupLast_snoc_other _ _ hne]
            exact hv
          | success data =>
            cases hx : extract data with
            | ok m =>
              rw [step_opComplete_ok hsp ho hr hx]
              simp only [cacheGet, cacheSet]
              rw [lookupLast_snoc_other _ _ hne]
              exact hv
            | error ee =>
              rw [step_opComplete_exterr hsp ho hr hx]
              exact hv
    | syncCall c q =>
      cases hcq : cacheGet (run evs) q with
      | none =>
        rw [step_syncCall_invoke_none c hsp hcq]
        exact hv
      | some entry =>
        cases entry with
        | prom n =>
          rw [step_syncCall_invoke_prom c hsp hcq]
          exact hv
        | res m =>
          rw [step_syncCall_res c hsp hcq]
          exact hv
        | fail er =>
          rw [step_syncCall_fail c hsp hcq]
          exact hv
    | syncReturn out =>
      have hid : step (run evs) (Ev.syncReturn out) = run evs := by
        simp [step, hsp]
      rw [hid]
      exact hv
    | clear => exact absurd rfl hnc

/-- Witness for the amended C4: a `Resolved` entry survives a later `probe`
call for the same identifier. -/
theorem settled_entry_preserved_witness :
    settledEntry (Entry.res c7meta) = true ∧
    cacheGet (step (run [Ev.asyncCall 0 "a",
        Ev.opComplete 0 (RawOutcome.success (some c7data))]) (Ev.asyncCall 1 "a")) "a"
      = some (Entry.res c7meta) := by
  refine ⟨rfl, settled_entry_preserved
    [Ev.asyncCall 0 "a", Ev.opComplete 0 (RawOutcome.success (some c7data))]
    (Ev.asyncCall 1 "a") "a" (Entry.res c7meta) rfl rfl (by decide) ?_⟩
  intro n out h
  cases h

/-- **C5 (counterexample).** An `ExtractionError` is delivered to the
asynchronous caller, but it is not cached as a `Failed` entry: the entry
stays the (rejected) promise, so a subsequent `probe.sync` request for the
same identifier starts a new invocation instead of replaying the stored
error. -/
theorem extraction_error_not_cached_counterexample :
    callerResult (run [Ev.asyncCall 0 "a",
        Ev.opComplete 0 (RawOutcome.success none)]) 0
      = some (Except.error (PErr.extraction ExtErr.unparseable)) ∧
    cacheGet (run [Ev.asyncCall 0 "a", Ev.opComplete 0 (RawOutcome.success none)]) "a"
      = some (Entry.prom 0) ∧
    (step (run [Ev.asyncCall 0 "a", Ev.opComplete 0 (RawOutcome.success none)])
        (Ev.syncCall 1 "a")).syncPending = some (1, "a") ∧
    inFlight (step (run [Ev.asyncCall 0 "a", Ev.opComplete 0 (RawOutcome.success none)])
        (Ev.syncCall 1 "a")) "a" = 1 :=
  ⟨rfl, rfl, rfl, rfl⟩

/-- **C5 (amended).** An `InvocationError` is cached as a `Failed` entry and
replayed — without any new invocation — to every subsequent asynchronous and
synchronous request until the next clear.  An `ExtractionError` is replayed
to subsequent asynchronous requests through the retained rejected promise
(still without a new invocation), but a subsequent synchronous request finds
a promise-valued entry and performs its own new invocation. -/
theorem error_replay_policy :
    (∀ (s : St) (c : Nat) (p : String) (e : PErr), s.syncPending = none →
      cacheGet s p = some (Entry.fail e) →
      step s (Ev.asyncCall c p)
          = { s with callers := s.callers ++ [(c, Hold.settled (Except.error e))] } ∧
      step s (Ev.syncCall c p)
          = { s with callers := s.callers ++ [(c, Hold.settled (Except.error e))] } ∧
      callerResult (step s (Ev.asyncCall c p)) c = some (Except.error e) ∧
      callerResult (step s (Ev.syncCall c p)) c = some (Except.error e)) ∧
    (∀ (s : St) (c : Nat) (p : String) (n : Nat) (o : OpData) (e : PErr),
      s.syncPending = none → cacheGet s p = some (Entry.prom n) →
      opState s n = some o → o.prom = PromState.rejected e →
      step s (Ev.asyncCall c p)
          = { s with callers := s.callers ++ [(c, Hold.awaiting n)] } ∧
      callerResult (step s (Ev.asyncCall c p)) c = some (Except.error e)) ∧
    (∀ (s : St) (c : Nat) (p : String) (n : Nat), s.syncPending = none →
      cacheGet s p = some (Entry.prom n) →
      (step s (Ev.syncCall c p)).syncPending = some (c, p)) := by
  refine ⟨?_, ?_, ?_⟩
  · intro s c p e hsp hc
    refine ⟨step_asyncCall_fail c hsp hc, step_syncCall_fail c hsp hc, ?_, ?_⟩
    · rw [step_asyncCall_fail c hsp hc]
      simp [callerResult, callerHold, lookupLast_snoc_self]
    · rw [step_syncCall_fail c hsp hc]
      simp [callerResult, callerHold, lookupLast_snoc_self]
  · intro s c p n o e hsp hc ho hprom
    refine ⟨step_asyncCall_prom c hsp hc, ?_⟩
    rw [step_asyncCall_prom c hsp hc]
    have ho2 : lookupLast s.ops n = some o := ho
    simp [callerResult, callerHold, opState, lookupLast_snoc_self, ho2, hprom]
  · intro s c p n hsp hc
    rw [step_syncCall_invoke_prom c hsp hc]

/-- Witness for the amended C5 at concrete states: a cached invocation error
replayed to both kinds of request, a rejected promise replayed to an async
request, and a sync request on a rejected promise starting a new
invocation. -/
theorem error_replay_policy_witness :
    callerResult (step (run [Ev.asyncCall 0 "a", Ev.opComplete 0 (RawOutcome.fail "boom")])
        (Ev.asyncCall 1 "a")) 1 = some (Except.error (PErr.invocation "boom")) ∧
    callerResult (step (run [Ev.asyncCall 0 "a", Ev.opComplete 0 (RawOutcome.fail "boom")])
        (Ev.syncCall 1 "a")) 1 = some (Except.error (PErr.invocation "boom")) ∧
    callerResult (step (run [Ev.asyncCall 0 "a", Ev.opComplete 0 (RawOutcome.success none)])
        (Ev.asyncCall 1 "a")) 1 = some (Except.error (PErr.extraction ExtErr.unparseable)) ∧
    (step (run [Ev.asyncCall 0 "a", Ev.opComplete 0 (RawOutcome.success none)])
        (Ev.syncCall 1 "a")).syncPending = some (1, "a") := by
  obtain ⟨h1, h2, h3⟩ := error_replay_policy
  obtain ⟨-, -, h1a, h1s⟩ := h1 (run [Ev.asyncCall 0 "a",
    Ev.opComplete 0 (RawOutcome.fail "boom")]) 1 "a" (PErr.invocation "boom") rfl rfl
  obtain ⟨-, h2a⟩ := h2 (run [Ev.asyncCall 0 "a", Ev.opComplete 0 (RawOutcome.success none)])
    1 "a" 0 { path := "a", running := false, prom := PromState.rejected (PErr.extraction ExtErr.unparseable) }
    (PErr.extraction ExtErr.unparseable) rfl rfl rfl rfl
  exact ⟨h1a, h1s, h2a,
    h3 (run [Ev.asyncCall 0 "a", Ev.opComplete 0 (RawOutcome.success none)]) 1 "a" 0 rfl rfl⟩

/-- **C6.** A parse result that is unparseable, lacks a non-empty `streams`
array, or lacks a `format` block makes extraction fail with an
`ExtractionError`: no metadata record is produced, the completing operation's
promise is rejected with the extraction error (asynchronous callers see a
rejection), and the cache is left unchanged. -/
theorem extract_bad_shape_errors (data : Option ProbeData) (h : badShape data) :
    (∃ e, extract data = Except.error e) ∧
    (∀ (s : St) (n : Nat) (o : OpData), s.syncPending = none →
      opState s n = some o → o.running = true →
      (∃ e, opState (step s (Ev.opComplete n (RawOutcome.success data))) n
          = some { o with running := false, prom := PromState.rejected (PErr.extraction e) }) ∧
      (step s (Ev.opComplete n (RawOutcome.success data))).cache = s.cache) := by
  obtain ⟨ee, hx⟩ := extract_badShape h
  refine ⟨⟨ee, hx⟩, ?_⟩
  intro s n o hsp ho hr
  rw [step_opComplete_exterr hsp ho hr hx]
  refine ⟨⟨ee, ?_⟩, rfl⟩
  show lookupLast (setOp s.ops n _) n = _
  rw [setOp, lookupLast_updAt_self, show lookupLast s.ops n = some o from ho]
  rfl

/-- Witness for C6: unparseable stdout rejects the operation's promise with
an extraction error and leaves the cache untouched. -/
theorem extract_bad_shape_errors_witness :
    (∃ e, extract none = Except.error e) ∧
    (∃ e, opState (step (run [Ev.asyncCall 0 "a"])
        (Ev.opComplete 0 (RawOutcome.success none))) 0
      = some { path := "a", running := false, prom := PromState.rejected (PErr.extraction e) }) ∧
    (step (run [Ev.asyncCall 0 "a"]) (Ev.opComplete 0 (RawOutcome.success none))).cache
      = (run [Ev.asyncCall 0 "a"]).cache := by
  obtain ⟨h1, h2⟩ := extract_bad_shape_errors none (Or.inl rfl)
  obtain ⟨h3, h4⟩ := h2 (run [Ev.asyncCall 0 "a"]) 0
    { path := "a", running := true, prom := PromState.pending } rfl rfl rfl
  exact ⟨h1, h3, h4⟩

/-- **C7.** The spec's §8 example: one stream `{codec_name:"aac",
sample_rate:"44100"}` with format `{format_name:"hls,applehttp",
size:"1024", tags:{Artist:"X", Date:"2001-05-01"}}` extracts to a record
with codec `"aac"`, format `"hls"` (first comma-delimited token), sample
rate `44100`, size `1024`, artist `"X"` (tag keys matched
case-insensitively) and year `2001` (year of the parsed date tag). -/
theorem extract_spec_example :
    extract (some c7data) = Except.ok c7meta ∧
    c7meta.codec = some "aac" ∧ c7meta.format = some "hls" ∧
    c7meta.sample_rate = some 44100 ∧ c7meta.size = some 1024 ∧
    c7meta.artist = some "X" ∧ c7meta.year = some 2001 :=
  ⟨rfl, rfl, rfl, rfl, rfl, rfl, rfl⟩

/-- **C8.** The clear interval is fixed at 60000 ms; the clear replaces the
whole cache by the empty map in one atomic step regardless of entry ages, and
the next `probe` request for a previously `Resolved` identifier misses the
cache and starts exactly one new invocation. -/
theorem cache_clear_behavior :
    clearIntervalMs = 60000 ∧
    ∀ (s : St) (c : Nat) (p : String) (m : Metadata), s.syncPending = none →
      cacheGet s p = some (Entry.res m) →
      (step s Ev.clear).cache = [] ∧
      cacheGet (step s Ev.clear) p = none ∧
      (step (step s Ev.clear) (Ev.asyncCall c p)).ops.length = s.ops.length + 1 ∧
      cacheGet (step (step s Ev.clear) (Ev.asyncCall c p)) p = some (Entry.prom s.nextOp) ∧
      opState (step (step s Ev.clear) (Ev.asyncCall c p)) s.nextOp
        = some { path := p, running := true, prom := PromState.pending } := by
  refine ⟨rfl, ?_⟩
  intro s c p m hsp hc
  rw [step_clear hsp]
  rw [step_asyncCall_none (s := { s with cache := [] }) c hsp rfl]
  refine ⟨rfl, rfl, by simp, ?_, ?_⟩
  · exact lookupLast_snoc_self [] p (Entry.prom s.nextOp)
  · exact lookupLast_snoc_self s.ops s.nextOp
      { path := p, running := true, prom := PromState.pending }

/-- Witness for C8: clearing after a resolved probe of `"a"`, the next
request misses and starts operation 1. -/
theorem cache_clear_behavior_witness :
    clearIntervalMs = 60000 ∧
    cacheGet (step (run [Ev.asyncCall 0 "a",
        Ev.opComplete 0 (RawOutcome.success (some c7data))]) Ev.clear) "a" = none ∧
    cacheGet (step (step (run [Ev.asyncCall 0 "a",
        Ev.opComplete 0 (RawOutcome.success (some c7data))]) Ev.clear)
        (Ev.asyncCall 1 "a")) "a" = some (Entry.prom 1) := by
  obtain ⟨h0, h⟩ := cache_clear_behavior
  obtain ⟨-, h2, -, h4, -⟩ := h (run [Ev.asyncCall 0 "a",
    Ev.opComplete 0 (RawOutcome.success (some c7data))]) 1 "a" c7meta rfl rfl
  exact ⟨h0, h2, h4⟩

/-- **C9.** For every numeric metadata field (`size`, `bit_rate`,
`sample_rate`, `bit_depth` from `bits_per_raw_sample`, `channels`,
`duration`), a raw string whose integer parse yields `0` produces `null` in
the returned metadata record: `parseInt(x) || null` conflates `0` with a
parse failure. -/
theorem zero_parse_yields_null (info : ProbeData) (st : Obj) (rest : List Obj)
    (fo : FormatObj) (m : Metadata) (hs : info.streams = some (st :: rest))
    (hf : info.format = some fo) (hm : extract (some info) = Except.ok m) :
    (∀ v, oget (keysToLower fo.fields) "size" = some v →
      parseIntJS v = some 0 → m.size = none) ∧
    (∀ v, oget (keysToLower fo.fields) "bit_rate" = some v →
      parseIntJS v = some 0 → m.bit_rate = none) ∧
    (∀ v, oget (keysToLower st) "sample_rate" = some v →
      parseIntJS v = some 0 → m.sample_rate = none) ∧
    (∀ v, oget (keysToLower st) "bits_per_raw_sample" = some v →
      parseIntJS v = some 0 → m.bit_depth = none) ∧
    (∀ v, oget (keysToLower st) "channels" = some v →
      parseIntJS v = some 0 → m.channels = none) ∧
    (∀ v, oget (keysToLower st) "duration" = some v →
      parseIntJS v = some 0 → m.duration = none) := by
  obtain ⟨-, hsize, hbr, hsr, hbd, hch, hdur⟩ := extract_ok_fields hs hf hm
  refine ⟨?_, ?_, ?_, ?_, ?_, ?_⟩ <;> intro v hv h0
  · rw [hsize, hv]
    exact intOrNull_zero h0
  · rw [hbr, hv]
    exact intOrNull_zero h0
  · rw [hsr, hv]
    exact intOrNull_zero h0
  · rw [hbd, hv]
    exact intOrNull_zero h0
  · rw [hch, hv]
    exact intOrNull_zero h0
  · rw [hdur, hv]
    exact intOrNull_zero h0

/-- Witness for C9: `size = "0"` and `channels = "0"` both come out `null`. -/
theorem zero_parse_yields_null_witness :
    c9meta.size = none ∧ c9meta.channels = none := by
  obtain ⟨hsize, -, -, -, hch, -⟩ := zero_parse_yields_null c9data
    [("codec_name", "aac"), ("channels", "0")] []
    { fields := [("format_name", "wav"), ("size", "0")], tags := none }
    c9meta rfl rfl rfl
  exact ⟨hsize "0" rfl rfl, hch "0" rfl rfl⟩

/-- **C10.** A parse result with a non-empty `streams` array and a `format`
block but no `format_name` field makes extraction throw (an
`ExtractionError` from the wrapped `null.split` fault), not return a record
with a `null` format; and the `format` field of every successfully returned
record is non-`null`. -/
theorem format_never_null :
    (∀ (info : ProbeData) (st : Obj) (rest : List Obj) (fo : FormatObj),
      info.streams = some (st :: rest) → info.format = some fo →
      oget (keysToLower fo.fields) "format_name" = none →
      extract (some info) = Except.error ExtErr.fault) ∧
    (∀ (data : Option ProbeData) (m : Metadata),
      extract data = Except.ok m → m.format ≠ none) :=
  ⟨fun _ _ _ _ hs hf hfn => extract_missing_format_name hs hf hfn,
   fun _ _ h => extract_ok_format h⟩

/-- Witness for C10: a concrete result without `format_name` faults, and the
example record's format is non-`null`. -/
theorem format_never_null_witness :
    extract (some c10data) = Except.error ExtErr.fault ∧ c7meta.format ≠ none := by
  obtain ⟨h1, h2⟩ := format_never_null
  exact ⟨h1 c10data [("codec_name", "aac")] []
      { fields := [("size", "10")], tags := none } rfl rfl rfl,
    h2 (some c7data) c7meta rfl⟩

end QFFprobe
